import Mathlib

/-!
Verification of the Snooty UI components.

Shallow embedding of the repository's table-of-contents renderer
(`src/components/Sidenav/TOCNode.js` and the unnamed TOC variant), the
`VersionDropdown` component, and the search-result highlight/sanitize helpers,
together with proofs of the specified properties.

JS strings are modelled as Lean `String`; optional string fields that the code
reads with `||` / default-parameter fallbacks are modelled as `String` with
`""` standing for `undefined`/missing (both are falsy and behave identically in
every expression the embedded code evaluates them in).
-/

namespace Snooty

/-- A table-of-contents node, following the `node` prop shape declared in
`TOCNode.propTypes`: `slug` and `url` are optional strings (modelled with `""`
for absent), `options.drawer` and `options.tocicon` are optional booleans
(coerced with `!!` in the code, so modelled as `Bool` with `false` for absent),
and `children` is a required array of nodes.  The `title` (plain string or
formatted-text array) only flows into the external `formatText` helper and is
irrelevant to every claim, so it is modelled as an opaque string. -/
inductive TocNode : Type where
  | mk (title : String) (slug : String) (url : String)
       (drawer : Bool) (tocicon : Bool) (children : List TocNode)

def TocNode.title : TocNode → String
  | .mk t _ _ _ _ _ => t

def TocNode.slug : TocNode → String
  | .mk _ s _ _ _ _ => s

def TocNode.url : TocNode → String
  | .mk _ _ u _ _ _ => u

def TocNode.drawer : TocNode → Bool
  | .mk _ _ _ d _ _ => d

def TocNode.tocicon : TocNode → Bool
  | .mk _ _ _ _ i _ => i

def TocNode.children : TocNode → List TocNode
  | .mk _ _ _ _ _ cs => cs

/-- Embeds `const target = slug || url;` — the node's navigation target (JS `||`
falls through on the empty string). -/
def TocNode.target (n : TocNode) : String :=
  if n.slug == "" then n.url else n.slug

/-- Embeds `const hasChildren = !!children.length;`. -/
def TocNode.hasChildren (n : TocNode) : Bool :=
  !n.children.isEmpty

mutual
/-- Modelled from the spec: the Active-Node Predicate `isActiveTocNode`
(imported from `utils/is-active-toc-node`, not present under `src/`).
"Pure function: given the current active-section identifier, a node's target,
and its children, returns true iff the target matches exactly OR any node in
the subtree (applied recursively, unbounded depth) matches." -/
def isActiveTocNode (activeSection : String) (target : String)
    (children : List TocNode) : Bool :=
  activeSection == target || anyActiveToc activeSection children

/-- Helper for [Snooty.isActiveTocNode]: does any node of the forest have an
active node in its subtree? -/
def anyActiveToc (activeSection : String) : List TocNode → Bool
  | [] => false
  | .mk _ slug url _ _ cs :: rest =>
      isActiveTocNode activeSection (if slug == "" then url else slug) cs
        || anyActiveToc activeSection rest
end

/-- Modelled from the spec: the Selected-Node Predicate `isSelectedTocNode`
(imported from `utils/is-selected-toc-node`, not present under `src/`).
"Pure function: exact match only, no descendant search." -/
def isSelectedTocNode (activeSection : String) (target : String) : Bool :=
  activeSection == target

mutual
/-- All nodes of the subtree rooted at a node (the node itself and every
descendant at any depth), used to state the full-subtree search property. -/
def tocSubtree : TocNode → List TocNode
  | .mk t s u d i cs => .mk t s u d i cs :: tocForestSubtree cs

/-- All nodes appearing in a forest, at any depth. -/
def tocForestSubtree : List TocNode → List TocNode
  | [] => []
  | c :: rest => tocSubtree c ++ tocForestSubtree rest
end

theorem anyActiveToc_iff (a : String) :
    ∀ cs : List TocNode,
      anyActiveToc a cs = true ↔ ∃ d ∈ tocForestSubtree cs, d.target = a := by
  have H : ∀ m : Nat, ∀ cs : List TocNode, sizeOf cs ≤ m →
      (anyActiveToc a cs = true ↔ ∃ d ∈ tocForestSubtree cs, d.target = a) := by
    intro m
    induction m with
    | zero =>
        intro cs h
        cases cs with
        | nil => simp [anyActiveToc, tocForestSubtree]
        | cons c rest => cases c; simp at h
    | succ m ih =>
        intro cs h
        cases cs with
        | nil => simp [anyActiveToc, tocForestSubtree]
        | cons c rest =>
            cases c with
            | mk t s u d i kids =>
                have hkids : sizeOf kids ≤ m := by simp at h; omega
                have hrest : sizeOf rest ≤ m := by simp at h; omega
                rw [anyActiveToc, isActiveTocNode]
                simp only [Bool.or_eq_true, ih kids hkids, ih rest hrest,
                  tocForestSubtree, tocSubtree, List.mem_append, List.mem_cons,
                  beq_iff_eq]
                constructor
                · rintro (⟨h1 | ⟨d, hd, hda⟩⟩ | ⟨d, hd, hda⟩)
                  · exact ⟨_, Or.inl (Or.inl rfl), by
                      simp [TocNode.target, TocNode.slug, TocNode.url, h1.symm]⟩
                  · exact ⟨d, Or.inl (Or.inr hd), hda⟩
                  · exact ⟨d, Or.inr hd, hda⟩
                · rintro ⟨d, (rfl | hd) | hd, hda⟩
                  · refine Or.inl (Or.inl ?_)
                    simp only [TocNode.target, TocNode.slug, TocNode.url,
                      beq_iff_eq] at hda
                    exact hda.symm
                  · exact Or.inl (Or.inr ⟨d, hd, hda⟩)
                  · exact Or.inr ⟨d, hd, hda⟩
  exact fun cs => H (sizeOf cs) cs le_rfl

/-- The example tree of the spec: `{target:"a", children:[{target:"a/b"}]}`. -/
def exampleChildNode : TocNode := .mk "child" "a/b" "" false false []

def exampleRootNode : TocNode := .mk "root" "a" "" false false [exampleChildNode]

/-- A node reached through `url` only (empty `slug`), a shape the propTypes
and the data model allow for external-URL TOC entries. -/
def exampleUrlNode : TocNode := .mk "ext" "" "https://ext" false false []

/-! ## The TOCNode renderer (`src/components/Sidenav/TOCNode.js`)

The component body computes
`isActive = isActiveTocNode(activeSection, slug, children)` and
`isSelected = isSelectedTocNode(activeSection, slug)` (both called with the
node's `slug`, lines 40–41). -/

def nodeIsActive (activeSection : String) (n : TocNode) : Bool :=
  isActiveTocNode activeSection n.slug n.children

def nodeIsSelected (activeSection : String) (n : TocNode) : Bool :=
  isSelectedTocNode activeSection n.slug

/-- C1 counterexample: the claim phrases isActive in terms of `node.target`,
but the renderer computes it from `slug` (it calls the predicate with `slug`,
not with `slug || url`): for a url-only node whose target equals the active
section, the renderer's isActive is false although the claim requires it to
be true. -/
theorem nodeIsActive_target_counterexample :
    exampleUrlNode.target = "https://ext" ∧
    nodeIsActive "https://ext" exampleUrlNode = false := by
  refine ⟨rfl, ?_⟩
  simp [nodeIsActive, isActiveTocNode, anyActiveToc, exampleUrlNode,
    TocNode.slug, TocNode.children]

/-- C1 (amended): For every node and activeSection, the renderer's isActive
is true iff the node's slug equals activeSection or some descendant node at
any depth has target equal to activeSection, and is false otherwise; the
search covers the full subtree, not only direct children, but the node itself
is matched on its slug, not on its target. -/
theorem nodeIsActive_full_subtree (activeSection : String) (n : TocNode) :
    nodeIsActive activeSection n = true ↔
      (n.slug = activeSection ∨
        ∃ d ∈ tocForestSubtree n.children, d.target = activeSection) := by
  rw [nodeIsActive, isActiveTocNode, Bool.or_eq_true, beq_iff_eq,
    anyActiveToc_iff]
  constructor
  · rintro (h | h)
    · exact Or.inl h.symm
    · exact Or.inr h
  · rintro (h | h)
    · exact Or.inl h.symm
    · exact Or.inr h

/-- C6 counterexample: the claim phrases isSelected in terms of
`node.target`, but the renderer computes it from `slug`: a url-only node
whose target equals the active section exactly is still not selected. -/
theorem nodeIsSelected_target_counterexample :
    exampleUrlNode.target = "https://ext" ∧
    nodeIsSelected "https://ext" exampleUrlNode = false := by
  exact ⟨rfl, rfl⟩

/-- C6 (amended): For every node and activeSection, the renderer's isSelected
is true iff the node's slug equals activeSection exactly, with no descendant
search (and no url fallback); on the spec's example tree with slugs "a" and
"a/b" and activeSection "a/b", the root has isActive = true and
isSelected = false while the child has isActive = true and
isSelected = true. -/
theorem nodeIsSelected_exact_match :
    (∀ (activeSection : String) (n : TocNode),
        nodeIsSelected activeSection n = true ↔ n.slug = activeSection) ∧
    nodeIsActive "a/b" exampleRootNode = true ∧
    nodeIsSelected "a/b" exampleRootNode = false ∧
    nodeIsActive "a/b" exampleChildNode = true ∧
    nodeIsSelected "a/b" exampleChildNode = true := by
  refine ⟨fun a n => by
      rw [nodeIsSelected, isSelectedTocNode, beq_iff_eq]; exact eq_comm,
    ?_, ?_, ?_, ?_⟩ <;>
    simp [nodeIsActive, nodeIsSelected, isActiveTocNode, anyActiveToc,
      isSelectedTocNode, exampleRootNode, exampleChildNode, TocNode.slug,
      TocNode.target, TocNode.url, TocNode.children]

/-- The element produced by the `NodeLink` render function: either a
`SideNavItem` whose onClick flips `isOpen` (the two drawer-with-children
branches, which render no link), or a `SideNavItem` rendered as a `Link` to
`target` with `active={isSelected}` and `onClick={handleClick}` (the two
remaining branches).  `withIcon` records whether the `SyncCloud` icon/tooltip
is overlaid; `level` records the styling depth. -/
inductive NodeLinkView : Type where
  | toggle (withIcon : Bool) (level : Nat)
  | link (dest : String) (active : Bool) (withIcon : Bool) (level : Nat)

/-- The branch structure of `NodeLink` in `TOCNode.js` (lines 61–142):
`isTocIcon && isDrawer && hasChildren` and `isDrawer && hasChildren` render a
toggle; `isTocIcon` and the fallthrough render a link to `target` with
`active={isSelected}`. -/
def renderNodeLink (activeSection : String) (level : Nat) (n : TocNode) :
    NodeLinkView :=
  if n.tocicon && n.drawer && n.hasChildren then .toggle true level
  else if n.drawer && n.hasChildren then .toggle false level
  else if n.tocicon then .link n.target (nodeIsSelected activeSection n) true level
  else .link n.target (nodeIsSelected activeSection n) false level

/-- Observable result of one user click on a rendered `NodeLink`:
the `isOpen` state afterwards, the navigations performed (as target paths) and
the number of `handleClick` invocations. -/
structure ClickOutcome : Type where
  isOpenAfter : Bool
  navigations : List String
  onClickCalls : Nat
  deriving DecidableEq, Repr

/-- Click semantics of the two element shapes.  The toggle branches run
`onClick={() => setIsOpen(!isOpen)}` and carry no link, so they navigate
nowhere and never call `handleClick`.  Modelled from the spec for the `Link`
element (the `Link` component is not under `src/`): activating a link
"performs navigation" to its `to` path and "invokes `onClick`" once, and does
not touch `isOpen`. -/
def clickNodeLink (v : NodeLinkView) (isOpen : Bool) : ClickOutcome :=
  match v with
  | .toggle _ _ => ⟨!isOpen, [], 0⟩
  | .link dest _ _ _ => ⟨isOpen, [dest], 1⟩

/-- A drawer node with one child, for concrete witnesses. -/
def exampleDrawerNode : TocNode := .mk "drawer" "d" "" true false [exampleChildNode]

/-- C2: For every drawer node with non-empty children, a user click flips the
local isOpen state and never triggers navigation or the onClick callback,
regardless of whether the node is active. -/
theorem drawer_click_toggles_never_navigates
    (activeSection : String) (level : Nat) (isOpen : Bool) (n : TocNode)
    (hdrawer : n.drawer = true) (hchildren : n.children ≠ []) :
    clickNodeLink (renderNodeLink activeSection level n) isOpen =
      ⟨!isOpen, [], 0⟩ := by
  have hc : n.hasChildren = true := by
    simp [TocNode.hasChildren, hchildren]
  rw [renderNodeLink]
  cases hi : n.tocicon <;> simp [hdrawer, hc, hi, clickNodeLink]

theorem drawer_click_toggles_never_navigates_witness :
    (exampleDrawerNode.drawer = true ∧ exampleDrawerNode.children ≠ []) ∧
    clickNodeLink (renderNodeLink "x" 1 exampleDrawerNode) false =
      ⟨true, [], 0⟩ :=
  ⟨⟨by simp [exampleDrawerNode, TocNode.drawer],
    by simp [exampleDrawerNode, TocNode.children]⟩,
   drawer_click_toggles_never_navigates "x" 1 false exampleDrawerNode
     (by simp [exampleDrawerNode, TocNode.drawer])
     (by simp [exampleDrawerNode, TocNode.children])⟩

/-- C3: For every non-drawer node, a user click triggers exactly one
navigation to `node.target` and invokes the supplied onClick callback exactly
once, and the rendered link is visually marked active exactly when isSelected
is true. -/
theorem nondrawer_click_navigates_once
    (activeSection : String) (level : Nat) (isOpen : Bool) (n : TocNode)
    (hdrawer : n.drawer = false) :
    renderNodeLink activeSection level n =
      .link n.target (nodeIsSelected activeSection n) n.tocicon level ∧
    clickNodeLink (renderNodeLink activeSection level n) isOpen =
      ⟨isOpen, [n.target], 1⟩ := by
  rw [renderNodeLink]
  cases hi : n.tocicon <;> simp [hdrawer, hi, clickNodeLink]

theorem nondrawer_click_navigates_once_witness :
    exampleChildNode.drawer = false ∧
    (renderNodeLink "a/b" 2 exampleChildNode =
        .link "a/b" true false 2 ∧
      clickNodeLink (renderNodeLink "a/b" 2 exampleChildNode) true =
        ⟨true, ["a/b"], 1⟩) := by
  refine ⟨by simp [exampleChildNode, TocNode.drawer], ?_⟩
  have h := nondrawer_click_navigates_once "a/b" 2 true exampleChildNode
    (by simp [exampleChildNode, TocNode.drawer])
  simpa [exampleChildNode, TocNode.target, TocNode.slug, TocNode.url,
    TocNode.tocicon, nodeIsSelected, isSelectedTocNode] using h

/-! ## The per-node open-state lifecycle (claim C4)

`TOCNode` holds `const [isOpen, setIsOpen] = useState(isActive)` and
```
useEffect(() => { setIsOpen(isActive); },
  [isActive, isDrawer ? activeSection : null]);
```
Per React's contract, `useState`'s argument is the initial value (used at
mount only) and an effect body re-runs after a render exactly when its
dependency array differs from the previous render's.  The component re-renders
when the `activeSection` prop changes or when its own state is set by a
click. -/

structure TocNodeState : Type where
  activeSection : String
  isOpen : Bool
  deriving DecidableEq, Repr

/-- The `useEffect` dependency array `[isActive, isDrawer ? activeSection : null]`. -/
def effectDeps (activeSection : String) (n : TocNode) : Bool × Option String :=
  (nodeIsActive activeSection n, if n.drawer then some activeSection else none)

/-- Mount: `useState(isActive)` initializes `isOpen` to the `isActive`
computed from the initial `activeSection`. -/
def mountNode (activeSection : String) (n : TocNode) : TocNodeState :=
  ⟨activeSection, nodeIsActive activeSection n⟩

/-- Re-render with a new `activeSection` prop: the effect `setIsOpen(isActive)`
fires iff the dependency array changed; otherwise `isOpen` is kept. -/
def rerenderNode (n : TocNode) (s : TocNodeState) (a : String) : TocNodeState :=
  if effectDeps a n ≠ effectDeps s.activeSection n then ⟨a, nodeIsActive a n⟩
  else ⟨a, s.isOpen⟩

/-- A user click on the node's rendered `NodeLink`.  The state update's
re-render leaves both effect dependencies unchanged, so no reset fires.
(The `level` argument of `renderNodeLink` affects only styling, never the
click outcome.) -/
def clickNode (n : TocNode) (s : TocNodeState) : TocNodeState :=
  ⟨s.activeSection,
   (clickNodeLink (renderNodeLink s.activeSection 1 n) s.isOpen).isOpenAfter⟩

/-- The triggers a mounted node reacts to: a change of the `activeSection`
prop, or a user click. -/
inductive TocEvent : Type where
  | setActive (a : String)
  | click
  deriving DecidableEq, Repr

def stepNode (n : TocNode) (s : TocNodeState) : TocEvent → TocNodeState
  | .setActive a => rerenderNode n s a
  | .click => clickNode n s

/-- The state after mounting with `activeSection = a₀` and processing the
events of `es` in order. -/
def runNode (n : TocNode) (a₀ : String) (es : List TocEvent) : TocNodeState :=
  es.foldl (stepNode n) (mountNode a₀ n)

theorem clickNode_eq (n : TocNode) (s : TocNodeState) (hd : n.drawer = false) :
    clickNode n s = ⟨s.activeSection, s.isOpen⟩ := by
  rw [clickNode, renderNodeLink]
  cases hi : n.tocicon <;> simp [hd, hi, clickNodeLink]

/-- A non-drawer node's `isOpen` always equals the `isActive` computed from
the current `activeSection`: clicks never touch it, and the effect's
dependency array is `[isActive, null]`, so `isOpen` is refreshed exactly when
`isActive` changes. -/
theorem nondrawer_isOpen_tracks_isActive (n : TocNode) (hd : n.drawer = false)
    (a₀ : String) (es : List TocEvent) :
    (runNode n a₀ es).isOpen = nodeIsActive (runNode n a₀ es).activeSection n := by
  induction es using List.reverseRecOn with
  | nil => simp [runNode, mountNode]
  | append_singleton es e ih =>
      rw [runNode, List.foldl_append] at *
      cases e with
      | setActive a =>
          simp only [List.foldl_cons, List.foldl_nil, stepNode]
          rw [rerenderNode]
          by_cases h : effectDeps a n =
              effectDeps (List.foldl (stepNode n) (mountNode a₀ n) es).activeSection n
          · rw [if_neg (by simpa using h)]
            have h1 := congrArg Prod.fst h
            simp only [effectDeps] at h1
            simpa using (h1.trans ih.symm).symm
          · rw [if_pos (by simpa using h)]
      | click =>
          simp only [List.foldl_cons, List.foldl_nil, stepNode]
          rw [clickNode_eq n _ hd]
          simpa [runNode] using ih

/-- C4: For every node, the local isOpen state is initialized to the value of
isActive at mount, and whenever activeSection changes, isOpen is reset to the
freshly computed isActive. -/
theorem isOpen_initialized_and_reset (n : TocNode) (a₀ : String) :
    (mountNode a₀ n).isOpen = nodeIsActive a₀ n ∧
    ∀ (es : List TocEvent) (a : String),
      a ≠ (runNode n a₀ es).activeSection →
      (stepNode n (runNode n a₀ es) (.setActive a)).isOpen =
        nodeIsActive a n := by
  refine ⟨rfl, fun es a ha => ?_⟩
  rw [stepNode]
  by_cases h : effectDeps a n ≠ effectDeps (runNode n a₀ es).activeSection n
  · simp [rerenderNode, h]
  · push_neg at h
    have hd : n.drawer = false := by
      by_contra hd
      rw [Bool.not_eq_false] at hd
      have h2 := congrArg Prod.snd h
      simp only [effectDeps, hd, if_true] at h2
      exact ha (Option.some.injEq _ _ ▸ h2)
    have h1 : nodeIsActive a n =
        nodeIsActive (runNode n a₀ es).activeSection n := congrArg Prod.fst h
    simp [rerenderNode, h, nondrawer_isOpen_tracks_isActive n hd a₀ es, h1]

theorem isOpen_initialized_and_reset_witness :
    ((mountNode "zzz" exampleRootNode).isOpen = nodeIsActive "zzz" exampleRootNode) ∧
    ("a/b" ≠ (runNode exampleRootNode "zzz" []).activeSection) ∧
    (stepNode exampleRootNode (runNode exampleRootNode "zzz" [])
        (.setActive "a/b")).isOpen = nodeIsActive "a/b" exampleRootNode := by
  have h := isOpen_initialized_and_reset exampleRootNode "zzz"
  have hne : "a/b" ≠ (runNode exampleRootNode "zzz" []).activeSection := by
    simp [runNode, mountNode]
  exact ⟨h.1, hne, h.2 [] "a/b" hne⟩

/-! ## Recursive rendering of children (claim C5) -/

/-- One recursive `TOCNode` invocation issued for a child, recording the props
passed: `<TOCNode activeSection={activeSection} handleClick={handleClick}
node={c} level={level + 1} key={c.slug || c.url} />` (lines 148–154).
`H` is the (opaque) type of the `handleClick` callback value. -/
structure ChildCall (H : Type) : Type where
  activeSection : String
  handleClick : H
  node : TocNode
  level : Nat
  key : String

/-- The child-rendering expression `isOpen && children.map((c) => ...)` of the
`TOCNode` body. -/
def renderChildren {H : Type} (activeSection : String) (handleClick : H)
    (level : Nat) (n : TocNode) (isOpen : Bool) : List (ChildCall H) :=
  if isOpen then
    n.children.map (fun c => ⟨activeSection, handleClick, c, level + 1, c.target⟩)
  else []

/-- C5: For every node, the children subtrees are rendered if and only if
isOpen is true, and each child is rendered recursively with depth level + 1
and the same activeSection and onClick passed through unchanged; when isOpen
is false no child is rendered. -/
theorem children_rendered_iff_isOpen {H : Type} (activeSection : String)
    (handleClick : H) (level : Nat) (n : TocNode) :
    renderChildren activeSection handleClick level n false = [] ∧
    (renderChildren activeSection handleClick level n true).map ChildCall.node
      = n.children ∧
    ∀ cc ∈ renderChildren activeSection handleClick level n true,
      cc.activeSection = activeSection ∧ cc.handleClick = handleClick ∧
        cc.level = level + 1 := by
  refine ⟨by simp [renderChildren], ?_, fun cc hcc => ?_⟩
  · have hmap : ∀ cs : List TocNode,
        (cs.map (fun c => (⟨activeSection, handleClick, c, level + 1, c.target⟩ :
          ChildCall H))).map ChildCall.node = cs := by
      intro cs
      induction cs with
      | nil => rfl
      | cons c rest ih => simpa using ih
    simpa [renderChildren] using hmap n.children
  simp only [renderChildren, if_true, List.mem_map] at hcc
  obtain ⟨c, _, rfl⟩ := hcc
  exact ⟨rfl, rfl, rfl⟩

theorem children_rendered_iff_isOpen_witness :
    ((⟨"a/b", "cb", exampleChildNode, 2, "a/b"⟩ : ChildCall String)
        ∈ renderChildren "a/b" "cb" 1 exampleRootNode true) ∧
    ((⟨"a/b", "cb", exampleChildNode, 2, "a/b"⟩ : ChildCall String).activeSection
        = "a/b" ∧
      (⟨"a/b", "cb", exampleChildNode, 2, "a/b"⟩ : ChildCall String).handleClick
        = "cb" ∧
      (⟨"a/b", "cb", exampleChildNode, 2, "a/b"⟩ : ChildCall String).level = 2) := by
  have hmem : (⟨"a/b", "cb", exampleChildNode, 2, "a/b"⟩ : ChildCall String)
      ∈ renderChildren "a/b" "cb" 1 exampleRootNode true := by
    simp [renderChildren, exampleRootNode, exampleChildNode, TocNode.children,
      TocNode.target, TocNode.slug, TocNode.url]
  exact ⟨hmem,
    (children_rendered_iff_isOpen "a/b" "cb" 1 exampleRootNode).2.2 _ hmem⟩

/-! ## Search-result highlighting (the `SearchResult` source file)

The component highlights occurrences of the search term by
`text.replace(new RegExp(escapeRegExp(searchTerm), 'gi'), wrap)` where `wrap`
surrounds the match with a span carrying `SEARCH_MATCH_STYLE`.  The JS RegExp
engine is external; it is modelled here only on the patterns `escapeRegExp`
can produce, namely patterns denoting a literal string: `parseLiteralPattern`
recovers the denoted literal, and `jsReplaceAll` is the semantics of
`String.prototype.replace` with the `g` and `i` flags for a literal pattern
(leftmost, non-overlapping, case-insensitive; an empty pattern matches at
every position, including the end of the string). -/

/-- The value of `palette.yellow.light2` imported from the external
LeafyGreen palette package. -/
def paletteYellowLight2 : String := "#FFEC9E"

/-- The constant `SEARCH_MATCH_STYLE`: the inline style put on highlight spans. -/
def SEARCH_MATCH_STYLE : String := "background-color: " ++ paletteYellowLight2 ++ ";"

/-- The highlight wrapper produced by the replacement callback of
`highlightSearchTerm`: a span opening tag with `SEARCH_MATCH_STYLE`. -/
def highlightSpanOpen : String := "<span style=\"" ++ SEARCH_MATCH_STYLE ++ "\">"

def highlightSpanClose : String := "</span>"

/-- The character class of `escapeRegExp`: dot, star, plus, question mark,
caret, dollar, both curly braces, both parentheses, pipe, both square
brackets and backslash — every character with a special meaning in a JS
regular expression. -/
def isRegExpSpecial (c : Char) : Bool :=
  c ∈ ['.', '*', '+', '?', '^', '$', '\x7b', '\x7d', '(', ')', '|', '[', ']', '\\']

/-- Embeds `escapeRegExp`: prefix every special character with a backslash
(the JS replacement is the matched character preceded by a backslash,
applied globally to every occurrence). -/
def escapeRegExpList : List Char → List Char
  | [] => []
  | c :: rest =>
      (if isRegExpSpecial c then ['\\', c] else [c]) ++ escapeRegExpList rest

def escapeRegExp (s : String) : String := ⟨escapeRegExpList s.data⟩

/-- Parse a JS regex pattern that consists solely of literal atoms into the
literal string it matches: a backslash-escaped special character stands for
itself, a non-special character stands for itself, and anything else (a bare
special character, or an escape this model does not cover) is rejected. -/
def parseLiteralPattern : List Char → Option (List Char)
  | [] => some []
  | c :: rest =>
      if c == '\\' then
        match rest with
        | [] => none
        | d :: rest2 =>
            if isRegExpSpecial d then (parseLiteralPattern rest2).map (d :: ·)
            else none
      else if isRegExpSpecial c then none
      else (parseLiteralPattern rest).map (c :: ·)

/-- Case-insensitive character comparison (the `i` flag's case folding,
modelled by lower-casing). -/
def ciChar (a b : Char) : Bool := a.toLower == b.toLower

/-- Does the text start with the (case-insensitively compared) pattern? -/
def ciStartsWith : List Char → List Char → Bool
  | [], _ => true
  | _ :: _, [] => false
  | p :: ps, c :: cs => ciChar p c && ciStartsWith ps cs

/-- The semantics of JS `String.prototype.replace` with a global case-insensitive literal
pattern and a replacement function: scan left to right; at a match, feed the
matched slice of the original text to the replacement and continue after it;
an empty pattern matches before every character and at the end. -/
def jsReplaceAll (pat : List Char) (repl : List Char → List Char) :
    List Char → List Char
  | [] => if pat.isEmpty then repl [] else []
  | c :: rest =>
      if h : ¬pat.isEmpty ∧ ciStartsWith pat (c :: rest) then
        repl ((c :: rest).take pat.length) ++
          jsReplaceAll pat repl ((c :: rest).drop pat.length)
      else if pat.isEmpty then repl [] ++ c :: jsReplaceAll pat repl rest
      else c :: jsReplaceAll pat repl rest
termination_by l => l.length
decreasing_by
  · simp only [List.length_drop, List.length_cons]
    have : pat.length ≠ 0 := by
      intro h0
      exact h.1 (List.isEmpty_iff_length_eq_zero.mpr h0)
    omega
  · simp
  · simp

/-- Embeds `highlightSearchTerm` from the source: build the regex from
`escapeRegExp(searchTerm)` with flags `gi` and replace every match by the
highlight span.  The fallback branch is unreachable: `escapeRegExp` always
produces a pattern `parseLiteralPattern` accepts (proved below). -/
def highlightSearchTerm (text searchTerm : String) : String :=
  match parseLiteralPattern (escapeRegExp searchTerm).data with
  | some lit =>
      ⟨jsReplaceAll lit
        (fun m => highlightSpanOpen.data ++ m ++ highlightSpanClose.data)
        text.data⟩
  | none => text

theorem parseLiteralPattern_escape (l : List Char) :
    parseLiteralPattern (escapeRegExpList l) = some l := by
  induction l with
  | nil => rfl
  | cons c rest ih =>
      rw [escapeRegExpList]
      by_cases hs : isRegExpSpecial c
      · simp [hs, parseLiteralPattern, ih]
      · have hb : (c == '\\') = false := by
          rw [beq_eq_false_iff_ne]
          intro h
          rw [h] at hs
          simp [isRegExpSpecial] at hs
        rw [if_neg hs, List.singleton_append, parseLiteralPattern.eq_def]
        simp [hb, hs, ih]

/-- Replacing every match by the match itself reproduces the text: the
matched slices are slices of the original text and the remainder passes
through unchanged. -/
theorem jsReplaceAll_id (pat : List Char) :
    ∀ l : List Char, jsReplaceAll pat (fun m => m) l = l := by
  have H : ∀ m : Nat, ∀ l : List Char, l.length ≤ m →
      jsReplaceAll pat (fun m => m) l = l := by
    intro m
    induction m with
    | zero =>
        intro l hl
        rw [List.length_eq_zero.mp (Nat.le_zero.mp hl)]
        rw [jsReplaceAll]
        by_cases hp : pat.isEmpty <;> simp [hp]
    | succ m ih =>
        intro l hl
        cases l with
        | nil =>
            rw [jsReplaceAll]
            by_cases hp : pat.isEmpty <;> simp [hp]
        | cons c rest =>
            rw [jsReplaceAll]
            by_cases h : ¬pat.isEmpty ∧ ciStartsWith pat (c :: rest)
            · rw [dif_pos h]
              have hlen : pat.length ≠ 0 := by
                intro h0
                exact h.1 (List.isEmpty_iff_length_eq_zero.mpr h0)
              have hdrop : ((c :: rest).drop pat.length).length ≤ m := by
                simp only [List.length_drop, List.length_cons]
                simp only [List.length_cons] at hl
                omega
              rw [ih _ hdrop, List.take_append_drop]
            · rw [dif_neg h]
              have hrest : rest.length ≤ m := by
                simp only [List.length_cons] at hl
                omega
              by_cases hp : pat.isEmpty <;> simp [hp, ih rest hrest]
  exact fun l => H l.length l le_rfl

/-- C8: For every text and searchTerm, highlightSearchTerm treats searchTerm
as a literal string, not a regular expression: escapeRegExp escapes every
regex metacharacter in searchTerm, so the built pattern denotes exactly the
literal searchTerm, the case-insensitive literal occurrences of searchTerm in
text are wrapped in a highlight span, and the remainder of text is unchanged
(replacing each occurrence by itself gives back text). -/
theorem highlightSearchTerm_literal (text searchTerm : String) :
    parseLiteralPattern (escapeRegExp searchTerm).data = some searchTerm.data ∧
    highlightSearchTerm text searchTerm =
      ⟨jsReplaceAll searchTerm.data
        (fun m => highlightSpanOpen.data ++ m ++ highlightSpanClose.data)
        text.data⟩ ∧
    (⟨jsReplaceAll searchTerm.data (fun m => m) text.data⟩ : String) = text := by
  have hp : parseLiteralPattern (escapeRegExp searchTerm).data
      = some searchTerm.data := parseLiteralPattern_escape searchTerm.data
  refine ⟨hp, ?_, ?_⟩
  · rw [highlightSearchTerm, hp]
  · rw [jsReplaceAll_id]

/-! ## Sanitization of preview and title markup (claim C7)

The component renders `sanitizePreviewHtml(highlightedTitle)` and
`sanitizePreviewHtml(highlightedPreviewText)` as raw markup.
`sanitizePreviewHtml` calls the external `sanitize-html` library with the
configuration found in the source: allowedTags span only, allowedAttributes
style on span only, allowedStyles on span only background-color matching a
regex that anchors the fixed highlight color exactly, case-insensitively
(the color contains no regex special character, so the regex tests exact
case-insensitive equality).  The library itself is outside the repository;
its documented contract — strip every tag, attribute and style declaration
not on the allow-list, keeping the text content of stripped tags — is
modelled here on parsed markup. -/

/-- An attribute of a parsed HTML element: the style attribute with its parsed
declarations (property, value), or any other attribute.  A style attribute is
always represented by the first constructor. -/
inductive HtmlAttr : Type where
  | style (decls : List (String × String))
  | plain (name : String) (value : String)
  deriving DecidableEq, Repr

/-- Parsed HTML markup: text, or an element with attributes and children. -/
inductive Html : Type where
  | text (s : String)
  | elem (tag : String) (attrs : List HtmlAttr) (children : List Html)

/-- The shape of the configuration object handed to the sanitizer:
allowed tags, allowed attribute names per tag, and allowed style declarations
per tag (property name and the exact value the source's anchored
case-insensitive regex accepts). -/
structure SanitizeConfig : Type where
  allowedTags : List String
  allowedAttributes : List (String × List String)
  allowedStyles : List (String × List (String × String))

def allowedAttrsFor (cfg : SanitizeConfig) (tag : String) : List String :=
  (cfg.allowedAttributes.lookup tag).getD []

def allowedStylesFor (cfg : SanitizeConfig) (tag : String) : List (String × String) :=
  (cfg.allowedStyles.lookup tag).getD []

/-- Case-insensitive string equality, the semantics of the anchored
case-insensitive value regex. -/
def ciStrEq (a b : String) : Bool := a.toLower == b.toLower

/-- Modelled from the spec: how the external sanitizer treats one attribute.
An attribute survives only if its name is allowed for the tag; the style
attribute additionally has every declaration not on the tag's style
allow-list removed. -/
def sanitizeAttr (cfg : SanitizeConfig) (tag : String) : HtmlAttr → Option HtmlAttr
  | .style decls =>
      if (allowedAttrsFor cfg tag).contains "style" then
        some (.style (decls.filter (fun d =>
          (allowedStylesFor cfg tag).any (fun p => p.1 == d.1 && ciStrEq p.2 d.2))))
      else none
  | .plain name v =>
      if name != "style" && (allowedAttrsFor cfg tag).contains name then
        some (.plain name v)
      else none

mutual
/-- Modelled from the spec: the external `sanitize-html` library applied to
one parsed node.  Text survives; an allowed element survives with its
attributes filtered and its children sanitized; a disallowed element is
stripped, its (sanitized) children taking its place. -/
def sanitizeNode (cfg : SanitizeConfig) : Html → List Html
  | .text s => [.text s]
  | .elem tag attrs children =>
      if cfg.allowedTags.contains tag then
        [.elem tag (attrs.filterMap (sanitizeAttr cfg tag))
          (sanitizeForest cfg children)]
      else sanitizeForest cfg children

/-- Modelled from the spec: the sanitizer applied to a list of parsed nodes. -/
def sanitizeForest (cfg : SanitizeConfig) : List Html → List Html
  | [] => []
  | node :: rest => sanitizeNode cfg node ++ sanitizeForest cfg rest
end

/-- The configuration passed by `sanitizePreviewHtml` in the source. -/
def previewSanitizeConfig : SanitizeConfig where
  allowedTags := ["span"]
  allowedAttributes := [("span", ["style"])]
  allowedStyles := [("span", [("background-color", paletteYellowLight2)])]

/-- Embeds `sanitizePreviewHtml`: the sanitizer with the source's configuration. -/
def sanitizePreviewHtml (markup : List Html) : List Html :=
  sanitizeForest previewSanitizeConfig markup

/-- Is an attribute on the claim's allow-list: the style attribute whose
declarations are all background-color with the fixed highlight color
(case-insensitively)?  No other attribute is allowed. -/
def highlightAttrAllowed : HtmlAttr → Bool
  | .style decls =>
      decls.all (fun d => d.1 == "background-color" && ciStrEq paletteYellowLight2 d.2)
  | .plain _ _ => false

mutual
/-- Is every element of the markup a span whose attributes are on the
allow-list (recursively)? -/
def nodeAllowed : Html → Bool
  | .text _ => true
  | .elem tag attrs children =>
      tag == "span" && attrs.all highlightAttrAllowed && forestAllowed children

def forestAllowed : List Html → Bool
  | [] => true
  | node :: rest => nodeAllowed node && forestAllowed rest
end

theorem forestAllowed_append (xs ys : List Html) :
    forestAllowed (xs ++ ys) = (forestAllowed xs && forestAllowed ys) := by
  induction xs with
  | nil => simp [forestAllowed]
  | cons x rest ih => simp [forestAllowed, ih, Bool.and_assoc]

theorem sanitizeAttr_preview_allowed (x y : HtmlAttr)
    (h : sanitizeAttr previewSanitizeConfig "span" x = some y) :
    highlightAttrAllowed y = true := by
  cases x with
  | style decls =>
      rw [sanitizeAttr] at h
      rw [if_pos (by simp [allowedAttrsFor, previewSanitizeConfig])] at h
      obtain rfl := Option.some.inj h
      rw [highlightAttrAllowed, List.all_eq_true]
      intro d hd
      rw [List.mem_filter] at hd
      have hp := hd.2
      have hstyles : allowedStylesFor previewSanitizeConfig "span"
          = [("background-color", paletteYellowLight2)] := rfl
      rw [hstyles] at hp
      simp only [List.any_cons, List.any_nil, Bool.or_false] at hp
      simp only [Bool.and_eq_true, beq_iff_eq] at hp ⊢
      exact ⟨hp.1.symm, hp.2⟩
  | plain name v =>
      exfalso
      rw [sanitizeAttr] at h
      have hattrs : allowedAttrsFor previewSanitizeConfig "span" = ["style"] := rfl
      rw [hattrs] at h
      by_cases hc : (name != "style" && (["style"] : List String).contains name)
          = true
      · have h1 := hc
        simp only [List.contains_cons, List.contains_nil, Bool.or_false,
          Bool.and_eq_true, bne_iff_ne, beq_iff_eq] at h1
        exact h1.1 h1.2
      · rw [if_neg hc] at h
        exact Option.noConfusion h

/-- C7: For every input markup, the sanitization step applied to search
preview and title text before rendering removes all tags and styles except
the explicit allow-list: only span tags, only the style attribute, and only a
background-color style matching the fixed highlight color survive. -/
theorem sanitizePreviewHtml_allowlist (markup : List Html) :
    forestAllowed (sanitizePreviewHtml markup) = true := by
  have H : ∀ m : Nat, ∀ ns : List Html, sizeOf ns ≤ m →
      forestAllowed (sanitizeForest previewSanitizeConfig ns) = true := by
    intro m
    induction m with
    | zero =>
        intro ns h
        cases ns with
        | nil => rfl
        | cons node rest => cases node <;> simp at h
    | succ m ih =>
        intro ns h
        cases ns with
        | nil => rfl
        | cons node rest =>
            rw [sanitizeForest]
            cases node with
            | text s =>
                have hrest : sizeOf rest ≤ m := by simp at h; omega
                simp [sanitizeNode, forestAllowed, nodeAllowed, ih rest hrest]
            | elem tag attrs children =>
                have hrest : sizeOf rest ≤ m := by simp at h; omega
                have hkids : sizeOf children ≤ m := by simp at h; omega
                rw [sanitizeNode]
                by_cases htag : (previewSanitizeConfig.allowedTags).contains tag
                · rw [if_pos htag]
                  have htag' : tag = "span" := by
                    simpa [previewSanitizeConfig, List.contains_cons, eq_comm]
                      using htag
                  subst htag'
                  rw [List.singleton_append, forestAllowed, nodeAllowed]
                  have hattrs : (attrs.filterMap
                      (sanitizeAttr previewSanitizeConfig "span")).all
                      highlightAttrAllowed = true := by
                    rw [List.all_eq_true]
                    intro a ha
                    rw [List.mem_filterMap] at ha
                    obtain ⟨x, _, hx⟩ := ha
                    exact sanitizeAttr_preview_allowed x a hx
                  simp only [hattrs, ih children hkids, ih rest hrest,
                    beq_self_eq_true, Bool.true_and, Bool.and_true,
                    Bool.and_self]
                · rw [if_neg htag, forestAllowed_append]
                  simp [ih children hkids, ih rest hrest]
  exact H (sizeOf markup) markup le_rfl

/-! ## The VersionDropdown component (claims C9 and C10)

Embeds the version-selector logic of the `VersionDropdown` source file.  The
snapshot carries some obvious dev artifacts (duplicated imports, a
`console.log` of an undefined helper after the branch-count guard); the
in-function logic is taken as the authority.  URL construction
(`generatePrefix`, `getUrl`) delegates entirely to external utilities and the
site metadata, and no claim depends on it, so a dropdown option is modelled by
its UI label. -/

/-- The JS replacement of a leading run of non-digit characters by the empty
string (an anchored regex: it matches only when the string starts with at
least one non-digit, and then eats the whole leading run). -/
def jsStripLeadingNonDigits (s : String) : String :=
  match s.data with
  | [] => s
  | c :: _ =>
      if !c.isDigit then ⟨s.data.dropWhile (fun ch => !ch.isDigit)⟩ else s

/-- Embeds `createVersionLabel` from the source: fall back to
"Version Name Unknown" when neither name is given; otherwise take
`urlSlug || gitBranchName`, strip the leading non-digits, and prepend
"Version " when something remains, else return the label unmodified.
(The `console.warn` in the fallback branch is a log, not an effect.) -/
def createVersionLabel (urlSlug : String := "") (gitBranchName : String := "") :
    String :=
  if urlSlug == "" && gitBranchName == "" then "Version Name Unknown"
  else
    let label := if urlSlug == "" then gitBranchName else urlSlug
    let numericLabel := jsStripLeadingNonDigits label
    if numericLabel != "" then "Version " ++ numericLabel else label

/-- The claim's description of createVersionLabel, stated in its own words:
'Version Name Unknown' when both inputs are empty; otherwise the label is
urlSlug if non-empty else gitBranchName, all leading non-digit characters are
stripped, and the result is 'Version ' followed by the remainder when the
remainder is non-empty, or the unmodified label when stripping leaves
nothing. -/
def claimVersionLabel (urlSlug gitBranchName : String) : String :=
  if urlSlug = "" ∧ gitBranchName = "" then "Version Name Unknown"
  else
    let label := if urlSlug ≠ "" then urlSlug else gitBranchName
    let remainder : String := ⟨label.data.dropWhile (fun c => !c.isDigit)⟩
    if remainder ≠ "" then "Version " ++ remainder else label

theorem jsStripLeadingNonDigits_eq_dropWhile (s : String) :
    jsStripLeadingNonDigits s = ⟨s.data.dropWhile (fun c => !c.isDigit)⟩ := by
  cases s with
  | mk l =>
      cases l with
      | nil => rfl
      | cons c cs =>
          rw [jsStripLeadingNonDigits]
          by_cases hc : c.isDigit <;> simp [hc, List.dropWhile]

/-- C10: For every urlSlug and gitBranchName, createVersionLabel returns
'Version Name Unknown' when both are empty; otherwise it takes urlSlug if
non-empty else gitBranchName, strips all leading non-digit characters, and
returns 'Version ' followed by the remainder when the remainder is non-empty,
or the unmodified label when stripping leaves nothing. -/
theorem createVersionLabel_matches_claim (urlSlug gitBranchName : String) :
    createVersionLabel urlSlug gitBranchName
      = claimVersionLabel urlSlug gitBranchName := by
  rw [createVersionLabel, claimVersionLabel]
  by_cases hu : urlSlug = ""
  · by_cases hg : gitBranchName = ""
    · simp [hu, hg]
    · simp [hu, hg, jsStripLeadingNonDigits_eq_dropWhile]
  · simp [hu, jsStripLeadingNonDigits_eq_dropWhile]

end Snooty
